import Mathlib

/-!
Verification development for the raybun payload store and renderer helpers.

The TypeScript sources are embedded shallowly:
* JavaScript runtime values (the `unknown` content of protocol events) are
  modelled by the inductive `Value`; property access on `null`/`undefined`
  throws, which is modelled with `Except Unit`.
* `Date` values are modelled as natural numbers (milliseconds); the
  nondeterministic clock reads (`new Date()` in `addRequest`, `Date.now()`
  in `processPayload`) are threaded as explicit parameters.
* Strings are Lean strings (one `Char` per code point; the payloads the
  claims exercise stay in the basic multilingual plane, where JavaScript
  UTF-16 indices and code-point indices agree).
-/

namespace Raybun

/-! ### Character and list helpers mirroring the JavaScript string methods -/

def lbrace : Char := Char.ofNat 123

def rbrace : Char := Char.ofNat 125

/-- White space recognised by the embedded `String.prototype.trim` and by the
`\s` regular-expression class (the common members of both sets: space, tab,
line feed, carriage return, vertical tab, form feed, no-break space, BOM). -/
def jsWsChar (c : Char) : Bool :=
  c == ' ' || c == '\t' || c == '\n' || c == '\r' ||
  c.toNat == 11 || c.toNat == 12 || c.toNat == 160 || c.toNat == 65279

/-- The embedded `trim()`: drop white space from both ends. -/
def trimChars (l : List Char) : List Char :=
  ((l.dropWhile jsWsChar).reverse.dropWhile jsWsChar).reverse

/-- `leadsWith pre l` is the embedded `startsWith`: `pre` is a prefix of `l`. -/
def leadsWith : List Char → List Char → Bool
  | [], _ => true
  | _ :: _, [] => false
  | c :: cs, x :: xs => c == x && leadsWith cs xs

/-- The embedded `includes`: `sub` occurs somewhere in `l`. -/
def containsSub (l sub : List Char) : Bool :=
  leadsWith sub l ||
  match l with
  | [] => false
  | _ :: rest => containsSub rest sub

def asciiAlpha (c : Char) : Bool :=
  (97 ≤ c.toNat && c.toNat ≤ 122) || (65 ≤ c.toNat && c.toNat ≤ 90)

/-- Case-insensitive `startsWith` (ASCII case folding, as the sources only
match ASCII keywords): `kw` must already be lower case. -/
def caselessLeads (kw l : List Char) : Bool :=
  leadsWith kw (l.map Char.toLower)

/-! ### JavaScript values -/

/-- A JavaScript runtime value as delivered by `JSON.parse` of a request body:
the `unknown` type of the sources.  Numbers are modelled as integers (the
payloads the claims exercise use integral numbers only).  Object fields are an
insertion-ordered association list with pairwise-distinct keys, as JavaScript
object literals produce. -/
inductive Value where
  | undef : Value
  | null : Value
  | bool (b : Bool) : Value
  | num (n : Int) : Value
  | str (s : String) : Value
  | arr (elems : List Value) : Value
  | obj (fields : List (String × Value)) : Value

/-- Property access `v[key]`: throws a `TypeError` on `null`/`undefined`
(modelled as `.error ()`), returns the field on objects, and `undefined` on a
missing field or on any other primitive. -/
def getProp (v : Value) (key : String) : Except Unit Value :=
  match v with
  | .undef => .error ()
  | .null => .error ()
  | .obj fields =>
    match fields.lookup key with
    | some w => .ok w
    | none => .ok .undef
  | _ => .ok .undef

def Value.isNullish : Value → Bool
  | .undef => true
  | .null => true
  | _ => false

/-- JavaScript truthiness. -/
def Value.truthy : Value → Bool
  | .undef => false
  | .null => false
  | .bool b => b
  | .num n => n != 0
  | .str s => s != ""
  | .arr _ => true
  | .obj _ => true

/-- The `SameValueZero` comparison a JavaScript `Set` uses, restricted to
primitives; two object references are conservatively treated as distinct
(object identity is not modelled — in the store the compared values are the
screen names, which are primitives). -/
def Value.sameVal : Value → Value → Bool
  | .undef, .undef => true
  | .null, .null => true
  | .bool a, .bool b => a == b
  | .num a, .num b => a == b
  | .str a, .str b => a == b
  | _, _ => false

/-! ### The store (`src/store.ts`, embedded in the repository README)

`PayloadStore` from the sources.  The listener set is presentation-layer
state with no influence on the history, so it is not carried; `notify()` is
the identity on the modelled state. -/

structure RayPayload where
  type : String
  content : Value
  origin : Value := .undef

structure RayRequest where
  uuid : String
  payloads : List RayPayload
  meta : Value := .undef

structure StoredPayload where
  id : String
  uuid : String
  type : String
  content : Value
  origin : Value := .undef
  meta : Value := .undef
  timestamp : Nat
  color : Value := .undef
  label : Value := .undef
  size : Value := .undef
  screen : Value
  hidden : Bool := false

structure StoreState where
  payloads : List StoredPayload := []
  currentScreen : Value := .str "default"
  payloadCounter : Nat := 0

def initState : StoreState := {}

def MAX_PAYLOADS : Nat := 1000

/-- The identifier string `` `${Date.now()}-${this.payloadCounter++}` ``. -/
def mkId (now : Nat) (counter : Nat) : String :=
  toString now ++ "-" ++ toString counter

def getPayloads (st : StoreState) : List StoredPayload :=
  st.payloads.filter (fun p => !p.hidden)

def getAllPayloads (st : StoreState) : List StoredPayload :=
  st.payloads

def getPayloadsByScreen (st : StoreState) (screen : Value) : List StoredPayload :=
  st.payloads.filter (fun p => Value.sameVal p.screen screen && !p.hidden)

def getCurrentScreen (st : StoreState) : Value :=
  st.currentScreen

def getPayloadById (st : StoreState) (id : String) : Option StoredPayload :=
  st.payloads.find? (fun p => p.id == id)

/-- `getScreens`: the distinct truthy screen labels in insertion order
(`Array.from` of a `Set` built by one pass over the history). -/
def getScreens (st : StoreState) : List Value :=
  st.payloads.foldl
    (fun acc p =>
      if p.screen.truthy && !(acc.any (Value.sameVal p.screen)) then acc ++ [p.screen]
      else acc)
    []

def clear (st : StoreState) : StoreState :=
  { st with payloads := [] }

/-- `applyToPayload`'s scan, on an already reversed list: modify the first
match.  The modifier can throw (property access on nullish content). -/
def applyFirstE (uuid : String) (f : StoredPayload → Except Unit StoredPayload) :
    List StoredPayload → Except Unit (List StoredPayload)
  | [] => .ok []
  | q :: rest =>
    if q.uuid == uuid then
      match f q with
      | .error e => .error e
      | .ok q' => .ok (q' :: rest)
    else
      match applyFirstE uuid f rest with
      | .error e => .error e
      | .ok rest' => .ok (q :: rest')

/-- `applyToPayload`: find the most recent payload with this uuid (scanning
from the end of the array) and run the modifier on it; no-op when absent. -/
def applyToPayload (uuid : String) (f : StoredPayload → Except Unit StoredPayload)
    (l : List StoredPayload) : Except Unit (List StoredPayload) :=
  match applyFirstE uuid f l.reverse with
  | .error e => .error e
  | .ok r => .ok r.reverse

/-- The modifier of the `color` case: reading `.color` off the event content
throws when the content is nullish. -/
def setColor (content : Value) (q : StoredPayload) : Except Unit StoredPayload :=
  match getProp content "color" with
  | .error e => .error e
  | .ok v => .ok { q with color := v }

def setLabel (content : Value) (q : StoredPayload) : Except Unit StoredPayload :=
  match getProp content "label" with
  | .error e => .error e
  | .ok v => .ok { q with label := v }

def setSize (content : Value) (q : StoredPayload) : Except Unit StoredPayload :=
  match getProp content "size" with
  | .error e => .error e
  | .ok v => .ok { q with size := v }

def setHidden (q : StoredPayload) : Except Unit StoredPayload :=
  .ok { q with hidden := true }

/-- `processPayload`: the per-event switch.  `timestamp` is the batch date
taken in `addRequest`; `now` is the `Date.now()` read in the identifier
template literal. -/
def processPayload (st : StoreState) (uuid : String) (p : RayPayload)
    (meta : Value) (timestamp : Nat) (now : Nat) : Except Unit StoreState :=
  if p.type == "color" then
    match applyToPayload uuid (setColor p.content) st.payloads with
    | .error e => .error e
    | .ok pls => .ok { st with payloads := pls }
  else if p.type == "label" then
    match applyToPayload uuid (setLabel p.content) st.payloads with
    | .error e => .error e
    | .ok pls => .ok { st with payloads := pls }
  else if p.type == "size" then
    match applyToPayload uuid (setSize p.content) st.payloads with
    | .error e => .error e
    | .ok pls => .ok { st with payloads := pls }
  else if p.type == "new_screen" then
    match getProp p.content "name" with
    | .error e => .error e
    | .ok v => .ok { st with currentScreen := v }
  else if p.type == "clear_all" then
    .ok { st with payloads := [] }
  else if p.type == "hide" then
    match applyToPayload uuid setHidden st.payloads with
    | .error e => .error e
    | .ok pls => .ok { st with payloads := pls }
  else if p.type == "remove" then
    .ok { st with payloads := st.payloads.filter (fun q => q.uuid != uuid) }
  else if p.type == "show_app" || p.type == "hide_app" || p.type == "confetti" then
    .ok st
  else
    .ok { st with
      payloads := st.payloads ++
        [{ id := mkId now st.payloadCounter
           uuid := uuid
           type := p.type
           content := p.content
           origin := p.origin
           meta := meta
           timestamp := timestamp
           screen := st.currentScreen }]
      payloadCounter := st.payloadCounter + 1 }

/-- The event loop of `addRequest`; `now i` is the `Date.now()` observed while
processing the `i`-th event. -/
def processAll (uuid : String) (meta : Value) (timestamp : Nat) (now : Nat → Nat) :
    StoreState → List RayPayload → Nat → Except Unit StoreState
  | st, [], _ => .ok st
  | st, p :: rest, i =>
    match processPayload st uuid p meta timestamp (now i) with
    | .error e => .error e
    | .ok st' => processAll uuid meta timestamp now st' rest (i + 1)

/-- `addRequest`: take the batch date once, process every event in order,
then trim the history to the most recent `MAX_PAYLOADS` entries.  An uncaught
`TypeError` from an event propagates (`.error`), skipping the trim and the
notification. -/
def addRequest (st : StoreState) (req : RayRequest) (timestamp : Nat)
    (now : Nat → Nat) : Except Unit StoreState :=
  match processAll req.uuid req.meta timestamp now st req.payloads 0 with
  | .error e => .error e
  | .ok st' =>
    let pls :=
      if st'.payloads.length > MAX_PAYLOADS then
        st'.payloads.drop (st'.payloads.length - MAX_PAYLOADS)
      else st'.payloads
    .ok { st' with payloads := pls }

/-! ### `stringify` (src/components/renderers/index.tsx)

`JSON.stringify(value, null, 0)` for the values of `Value` (the preview path
only ever calls `stringify(v, 0)`, so only the compact form is embedded). -/

def hexDigit (n : Nat) : Char :=
  if n < 10 then Char.ofNat (48 + n) else Char.ofNat (87 + n)

def hex4 (n : Nat) : String :=
  String.mk [hexDigit (n / 4096 % 16), hexDigit (n / 256 % 16),
             hexDigit (n / 16 % 16), hexDigit (n % 16)]

/-- The string escaping of `JSON.stringify`. -/
def jsonEscapeChar (c : Char) : String :=
  if c == '"' then "\\\""
  else if c == '\\' then "\\\\"
  else if c == '\n' then "\\n"
  else if c == '\r' then "\\r"
  else if c == '\t' then "\\t"
  else if c.toNat == 8 then "\\b"
  else if c.toNat == 12 then "\\f"
  else if c.toNat < 32 then "\\u" ++ hex4 c.toNat
  else String.mk [c]

def jsonEscape (s : String) : String :=
  String.join (s.data.map jsonEscapeChar)

mutual

/-- Compact `JSON.stringify`; `none` is the `undefined` result (top-level
`undefined`, which `stringify` never passes down). -/
def jsonStringify : Value → Option String
  | .undef => none
  | .null => some "null"
  | .bool b => some (if b then "true" else "false")
  | .num n => some (toString n)
  | .str s => some ("\"" ++ jsonEscape s ++ "\"")
  | .arr xs => some ("[" ++ String.intercalate "," (jsonElems xs) ++ "]")
  | .obj fs => some ("\x7b" ++ String.intercalate "," (jsonFields fs) ++ "\x7d")

/-- Array elements: `undefined` becomes `null`. -/
def jsonElems : List Value → List String
  | [] => []
  | x :: xs => ((jsonStringify x).getD "null") :: jsonElems xs

/-- Object members: fields with `undefined` values are omitted. -/
def jsonFields : List (String × Value) → List String
  | [] => []
  | (k, v) :: fs =>
    match jsonStringify v with
    | some sv => ("\"" ++ jsonEscape k ++ "\":" ++ sv) :: jsonFields fs
    | none => jsonFields fs

end

/-- `stringify(value, 0)`: the helper of the renderers module, specialized to
indent 0, the only indent the preview path uses. -/
def stringify0 (v : Value) : String :=
  match v with
  | .null => "null"
  | .undef => "undefined"
  | .str s => s
  | .num n => toString n
  | .bool b => if b then "true" else "false"
  | .arr xs => (jsonStringify (.arr xs)).getD "undefined"
  | .obj fs => (jsonStringify (.obj fs)).getD "undefined"

/-! ### `truncate` and `getPreviewText` -/

/-- `truncate`: collapse newlines to spaces, trim, and cut to `maxLength`
characters with a `...` marker. -/
def truncate (text : String) (maxLength : Nat := 50) : String :=
  let singleLine :=
    String.mk (trimChars (text.data.map (fun c => if c == '\n' then ' ' else c)))
  if singleLine.length ≤ maxLength then singleLine
  else String.mk (singleLine.data.take (maxLength - 3)) ++ "..."

/-- A stack frame (`ExceptionContent`/`TraceContent`/`CallerContent` frames of
src/types.ts); `class` is a reserved word in Lean, so the field is `cls`. -/
structure Frame where
  file_name : String
  line_number : Int
  cls : Option String := none
  method : Option String := none
  vendor_frame : Bool := false

structure QueryContent where
  sql : String
  bindings : Option (List Value) := none
  time : Option Int := none
  connection_name : Option String := none
  is_slow : Option Bool := none
  is_duplicate : Option Bool := none

/-- A stored payload's tag together with content of the shape the renderer's
unchecked cast assumes for that tag: the tagged union that the switch of
`getPreviewText` dispatches on (one constructor per handled `case`, plus
`other` for the `default` branch carrying an arbitrary tag and raw content).
Field names and types follow the content interfaces of src/types.ts. -/
inductive TypedContent where
  | log (values : List Value) (label : Option String)
  | custom (content : String) (label : String)
  | exception (cls : String) (message : String) (frames : List Frame)
  | executed_query (q : QueryContent)
  | slow_query (q : QueryContent)
  | duplicate_query (q : QueryContent)
  | table (values : List (List (String × Value))) (label : Option String)
  | trace (frames : List Frame)
  | notify (value : String)
  | measure (name : String) (total_time : Option Int)
      (max_memory_usage_during_total_time : Option Int) (is_new_timer : Option Bool)
  | bool (value : Bool)
  | null
  | carbon (formatted : String) (timestamp : Int) (timezone : String)
  | application_log (value : String) (level : Option String)
      (context : Option Value)
  | text (content : String)
  | html (content : String)
  | xml (value : String)
  | json (value : Value)
  | image (url : Option String) (path : Option String) (location : Option String)
  | caller (frame : Frame)
  | file_contents (file : String) (contents : String)
  | separator
  | other (ty : String) (content : Value)

/-- JavaScript `a || b` for the optional strings of `ImageContent`: a missing
or empty (falsy) string falls through. -/
def orTruthy (a : Option String) (b : String) : String :=
  match a with
  | some s => if s == "" then b else s
  | none => b

/-- `getPreviewText`: the per-tag single-line summary of the payload list. -/
def getPreviewText : TypedContent → String
  | .log values _ => truncate (String.intercalate ", " (values.map stringify0))
  | .custom content _ => truncate content
  | .exception cls message _ => truncate (cls ++ ": " ++ message)
  | .executed_query q => truncate q.sql
  | .slow_query q => truncate q.sql
  | .duplicate_query q => truncate q.sql
  | .table values _ => toString values.length ++ " rows"
  | .trace frames => toString frames.length ++ " frames"
  | .notify value => truncate value
  | .measure name total_time _ _ =>
    match total_time with
    | some t => name ++ ": " ++ toString t ++ "ms"
    | none => name
  | .bool value => if value then "true" else "false"
  | .null => "null"
  | .carbon formatted _ _ => formatted
  | .application_log value _ _ => truncate value
  | .text content => truncate content
  | .html content => truncate content
  | .xml value => truncate value
  | .json value => truncate (stringify0 value)
  | .image url path _ => truncate (orTruthy url (orTruthy path "Image"))
  | .caller frame => frame.file_name ++ ":" ++ toString frame.line_number
  | .file_contents file _ => truncate file
  | .separator => "────────"
  | .other ty _ => ty

/-- The tags whose preview is produced through `truncate` (and is therefore
single-line and length-bounded). -/
def previewTruncated : TypedContent → Bool
  | .log .. => true
  | .custom .. => true
  | .exception .. => true
  | .executed_query .. => true
  | .slow_query .. => true
  | .duplicate_query .. => true
  | .notify .. => true
  | .application_log .. => true
  | .text .. => true
  | .html .. => true
  | .xml .. => true
  | .json .. => true
  | .image .. => true
  | .file_contents .. => true
  | _ => false

/-! ### `JSON.parse` validity

`detectLanguage` only observes whether `JSON.parse` succeeds, so the grammar
of ECMA-404 is embedded as a recognizer.  Recursion is by fuel (the nesting
depth is bounded by the input length, so `length + 8` fuel is always enough). -/

def jws (c : Char) : Bool :=
  c == ' ' || c == '\t' || c == '\n' || c == '\r'

def skipJws (l : List Char) : List Char :=
  l.dropWhile jws

def hexVal (c : Char) : Bool :=
  (48 ≤ c.toNat && c.toNat ≤ 57) || (97 ≤ c.toNat && c.toNat ≤ 102) ||
  (65 ≤ c.toNat && c.toNat ≤ 70)

/-- Recognize the rest of a JSON string after the opening quote; returns the
remaining input. -/
def jStrRest : List Char → Option (List Char)
  | [] => none
  | c :: rest =>
    if c == '"' then some rest
    else if c == '\\' then
      match rest with
      | [] => none
      | e :: rest2 =>
        if e == '"' || e == '\\' || e == '/' || e == 'b' || e == 'f' ||
           e == 'n' || e == 'r' || e == 't' then jStrRest rest2
        else if e == 'u' then
          match rest2 with
          | h1 :: h2 :: h3 :: h4 :: rest3 =>
            if hexVal h1 && hexVal h2 && hexVal h3 && hexVal h4 then jStrRest rest3
            else none
          | _ => none
        else none
    else if c.toNat < 32 then none
    else jStrRest rest

def jIntPart : List Char → Option (List Char)
  | [] => none
  | c :: rest =>
    if c == '0' then some rest
    else if 49 ≤ c.toNat && c.toNat ≤ 57 then some (rest.dropWhile Char.isDigit)
    else none

def jFracPart (l : List Char) : Option (List Char) :=
  match l with
  | '.' :: rest =>
    match rest with
    | c :: _ => if c.isDigit then some (rest.dropWhile Char.isDigit) else none
    | [] => none
  | _ => some l

def jExpPart (l : List Char) : Option (List Char) :=
  match l with
  | c :: rest =>
    if c == 'e' || c == 'E' then
      let rest2 := match rest with
        | s :: r => if s == '+' || s == '-' then r else rest
        | [] => rest
      match rest2 with
      | d :: _ => if d.isDigit then some (rest2.dropWhile Char.isDigit) else none
      | [] => none
    else some l
  | [] => some l

def jNumber (l : List Char) : Option (List Char) :=
  let l1 := match l with
    | c :: r => if c == '-' then r else l
    | [] => l
  match jIntPart l1 with
  | none => none
  | some l2 =>
    match jFracPart l2 with
    | none => none
    | some l3 => jExpPart l3

mutual

/-- Recognize one JSON value at the head of the input (leading white space
already skipped); returns the remaining input. -/
def jValue : Nat → List Char → Option (List Char)
  | 0, _ => none
  | fuel + 1, l =>
    match l with
    | [] => none
    | c :: rest =>
      if c == '"' then jStrRest rest
      else if c == lbrace then
        let r := skipJws rest
        match r with
        | d :: r2 => if d == rbrace then some r2 else jMembers fuel r
        | [] => none
      else if c == '[' then
        let r := skipJws rest
        match r with
        | d :: r2 => if d == ']' then some r2 else jElems fuel r
        | [] => none
      else if leadsWith "true".data l then some (l.drop 4)
      else if leadsWith "false".data l then some (l.drop 5)
      else if leadsWith "null".data l then some (l.drop 4)
      else if c == '-' || c.isDigit then jNumber l
      else none

/-- Recognize a non-empty member list of an object, consuming the closing
brace. -/
def jMembers : Nat → List Char → Option (List Char)
  | 0, _ => none
  | fuel + 1, l =>
    match l with
    | [] => none
    | c :: rest =>
      if c == '"' then
        match jStrRest rest with
        | none => none
        | some r1 =>
          match skipJws r1 with
          | [] => none
          | d :: r3 =>
            if d == ':' then
              match jValue fuel (skipJws r3) with
              | none => none
              | some r4 =>
                match skipJws r4 with
                | [] => none
                | e :: r6 =>
                  if e == ',' then jMembers fuel (skipJws r6)
                  else if e == rbrace then some r6
                  else none
            else none
      else none

/-- Recognize a non-empty element list of an array, consuming the closing
bracket. -/
def jElems : Nat → List Char → Option (List Char)
  | 0, _ => none
  | fuel + 1, l =>
    match jValue fuel l with
    | none => none
    | some r =>
      match skipJws r with
      | [] => none
      | d :: r3 =>
        if d == ',' then jElems fuel (skipJws r3)
        else if d == ']' then some r3
        else none

end

/-- Whether `JSON.parse` accepts the text (the try/catch of the JSON branch of
`detectLanguage`). -/
def jsonValid (l : List Char) : Bool :=
  match jValue (l.length + 8) (skipJws l) with
  | some rest => (skipJws rest).isEmpty
  | none => false

/-! ### `detectLanguage` -/

/-- Scan for a case-insensitive `xmlns` with no `>` since the scan started
(the `[^>]*xmlns` part of the `xmlns` regular expression). -/
def xmlnsSeg : List Char → Bool
  | [] => false
  | c :: rest =>
    if caselessLeads "xmlns".data (c :: rest) then true
    else if c == '>' then false
    else xmlnsSeg rest

/-- The unanchored test of `/<[a-z]+[^>]*xmlns/i`: some `<` followed by an
ASCII letter with `xmlns` (case-insensitive) appearing before any `>`. -/
def hasXmlns : List Char → Bool
  | [] => false
  | c :: rest =>
    (c == '<' &&
      (match rest with
       | d :: rest2 => asciiAlpha d && xmlnsSeg rest2
       | [] => false)) ||
    hasXmlns rest

def sqlKwList : List String :=
  ["select", "insert", "update", "delete", "create", "alter", "drop",
   "truncate", "with"]

/-- Keyword (case-insensitive) followed by one `\s` character, anchored at the
start; the leading `\s*` of the SQL regular expression matches nothing because
the input is already trimmed. -/
def kwThenWs (kw : String) (l : List Char) : Bool :=
  caselessLeads kw.data l &&
  (match l.drop kw.data.length with
   | c :: _ => jsWsChar c
   | [] => false)

def sqlStart (l : List Char) : Bool :=
  sqlKwList.any (fun kw => kwThenWs kw l)

def identStart (c : Char) : Bool :=
  asciiAlpha c || c == '_' || c == '$'

def identChar (c : Char) : Bool :=
  identStart c || c.isDigit

/-- Case-sensitive keyword followed by one `\s` character (the
`function\s|const\s|...` alternatives of the JavaScript declaration regular
expression). -/
def kwThenWsCase (kw : String) (l : List Char) : Bool :=
  leadsWith kw.data l &&
  (match l.drop kw.data.length with
   | c :: _ => jsWsChar c
   | [] => false)

/-- The `\([^)]*\)\s*=>` alternative: a parenthesized parameter list followed
by an arrow. -/
def arrowStart (l : List Char) : Bool :=
  match l with
  | c :: rest =>
    c == '(' &&
    (match rest.dropWhile (fun d => d != ')') with
     | e :: rest3 => e == ')' && leadsWith "=>".data (rest3.dropWhile jsWsChar)
     | [] => false)
  | [] => false

/-- The `[a-zA-Z_$][a-zA-Z0-9_$]*\s*=\s*function` alternative. -/
def identAssignFn (l : List Char) : Bool :=
  match l with
  | c :: rest =>
    identStart c &&
    (match (rest.dropWhile identChar).dropWhile jsWsChar with
     | e :: rest4 => e == '=' && leadsWith "function".data (rest4.dropWhile jsWsChar)
     | [] => false)
  | [] => false

def jsDeclStart (l : List Char) : Bool :=
  kwThenWsCase "function" l || kwThenWsCase "const" l || kwThenWsCase "let" l ||
  kwThenWsCase "var" l || kwThenWsCase "class" l || kwThenWsCase "async" l ||
  kwThenWsCase "export" l || kwThenWsCase "import" l ||
  arrowStart l || identAssignFn l

def lineTerm (c : Char) : Bool :=
  c == '\n' || c == '\r' || c.toNat == 8232 || c.toNat == 8233

/-- The `/^[.#@][a-zA-Z].*\{/` alternative: a selector-looking head with an
opening brace before any line terminator (`.` does not cross lines). -/
def cssSelector (l : List Char) : Bool :=
  match l with
  | a :: b :: rest =>
    (a == '.' || a == '#' || a == '@') && asciiAlpha b &&
    (rest.takeWhile (fun c => !lineTerm c)).contains lbrace
  | _ => false

/-- The `/^[a-z-]+\s*:\s*[^;]+;/i` alternative: a property-looking head; after
the colon the first semicolon must exist and not come first. -/
def cssRule (l : List Char) : Bool :=
  let letters := l.takeWhile (fun c => asciiAlpha c || c == '-')
  !letters.isEmpty &&
  (match (l.drop letters.length).dropWhile jsWsChar with
   | c :: t =>
     c == ':' &&
     (match t with
      | d :: tr => d != ';' && tr.contains ';'
      | [] => false)
   | [] => false)

def cssStart (l : List Char) : Bool :=
  cssSelector l || cssRule l

/-- `detectLanguage`: the fixed-priority heuristic of the renderers module. -/
def detectLanguage (s : String) : Option String :=
  let trimmed := trimChars s.data
  if (trimmed.head? == some '<') &&
     (containsSub trimmed "</".data || containsSub trimmed "/>".data) then
    let lower := trimmed.map Char.toLower
    if containsSub lower "<script".data || containsSub lower "</script>".data then
      some "html"
    else if leadsWith "<?xml".data trimmed || hasXmlns trimmed then some "xml"
    else some "html"
  else if ((trimmed.head? == some lbrace && trimmed.getLast? == some rbrace) ||
           (trimmed.head? == some '[' && trimmed.getLast? == some ']')) &&
          jsonValid trimmed then some "json"
  else if sqlStart trimmed then some "sql"
  else if leadsWith "<?php".data trimmed || leadsWith "<?=".data trimmed then
    some "php"
  else if jsDeclStart trimmed then some "javascript"
  else if cssStart trimmed then some "css"
  else none

/-! ### Identifier arithmetic

The identifier `mkId now counter` embeds the counter after the dash; the
lemmas here recover it, which gives injectivity of the identifier in the
counter and hence uniqueness of identifiers. -/

lemma digitChar_toNat (n : Nat) (h : n < 10) : (Nat.digitChar n).toNat = 48 + n := by
  interval_cases n <;> rfl

lemma digitChar_ne_dash {m : Nat} (h : m < 10) : Nat.digitChar m ≠ '-' := by
  intro hmeq
  have hval := digitChar_toNat m h
  rw [hmeq] at hval
  have hdash : Char.toNat '-' = 45 := rfl
  omega

lemma toDigitsCore_append : ∀ (fuel n : Nat) (acc : List Char), n < fuel →
    Nat.toDigitsCore 10 fuel n acc = Nat.toDigitsCore 10 fuel n [] ++ acc := by
  intro fuel
  induction fuel with
  | zero => intro n acc h; omega
  | succ fuel ih =>
    intro n acc h
    simp only [Nat.toDigitsCore]
    split
    · rfl
    · rename_i h10
      have hn10 : n / 10 < n := Nat.div_lt_self (by omega) (by omega)
      rw [ih (n / 10) _ (by omega), ih (n / 10) [Nat.digitChar (n % 10)] (by omega)]
      simp

lemma toDigitsCore_ne_dash : ∀ (fuel n : Nat) (acc : List Char),
    (∀ c ∈ acc, c ≠ '-') → ∀ c ∈ Nat.toDigitsCore 10 fuel n acc, c ≠ '-' := by
  intro fuel
  induction fuel with
  | zero => intro n acc hacc c hc; exact hacc c hc
  | succ fuel ih =>
    intro n acc hacc c hc
    simp only [Nat.toDigitsCore] at hc
    split at hc
    · rcases List.mem_cons.1 hc with rfl | hc
      · exact digitChar_ne_dash (Nat.mod_lt _ (by omega))
      · exact hacc c hc
    · refine ih (n / 10) _ ?_ c hc
      intro d hd
      rcases List.mem_cons.1 hd with rfl | hd
      · exact digitChar_ne_dash (Nat.mod_lt _ (by omega))
      · exact hacc d hd

def digitsVal (l : List Char) : Nat :=
  l.foldl (fun a c => 10 * a + (c.toNat - 48)) 0

lemma toDigitsCore_val : ∀ (fuel n : Nat), n < fuel →
    digitsVal (Nat.toDigitsCore 10 fuel n []) = n := by
  intro fuel
  induction fuel with
  | zero => intro n h; omega
  | succ fuel ih =>
    intro n h
    simp only [Nat.toDigitsCore]
    split
    · rename_i h10
      have hlt : n % 10 < 10 := Nat.mod_lt _ (by omega)
      simp [digitsVal, digitChar_toNat _ hlt]
      omega
    · rename_i h10
      have hn10 : n / 10 < n := Nat.div_lt_self (by omega) (by omega)
      rw [toDigitsCore_append fuel (n / 10) _ (by omega)]
      have hmod : n % 10 < 10 := Nat.mod_lt _ (by omega)
      simp only [digitsVal, List.foldl_append]
      have := ih (n / 10) (by omega)
      simp only [digitsVal] at this
      simp [this, List.foldl, digitChar_toNat _ hmod]
      omega

lemma natRepr_val (n : Nat) : digitsVal (Nat.repr n).data = n := by
  have : (Nat.repr n).data = Nat.toDigits 10 n := rfl
  rw [this]
  exact toDigitsCore_val (n + 1) n (by omega)

lemma natRepr_ne_dash (n : Nat) : ∀ c ∈ (Nat.repr n).data, c ≠ '-' := by
  have : (Nat.repr n).data = Nat.toDigits 10 n := rfl
  rw [this]
  exact toDigitsCore_ne_dash (n + 1) n [] (by simp)

/-- The characters after the last dash of an identifier. -/
def counterPart (l : List Char) : List Char :=
  (l.reverse.takeWhile (fun c => c != '-')).reverse

/-- The counter component of an identifier string. -/
def idCounter (s : String) : Nat :=
  digitsVal (counterPart s.data)

lemma takeWhileAppend {p : Char → Bool} (l₁ l₂ : List Char) (x : Char)
    (h₁ : ∀ c ∈ l₁, p c = true) (hx : p x = false) :
    (l₁ ++ x :: l₂).takeWhile p = l₁ := by
  induction l₁ with
  | nil => simp [List.takeWhile_cons, hx]
  | cons a rest ih =>
    have ha : p a = true := h₁ a (by simp)
    have ih' := ih (fun c hc => h₁ c (by simp [hc]))
    simp [List.takeWhile_cons, ha, ih']

lemma counterPart_mkId (now counter : Nat) :
    counterPart (mkId now counter).data = (Nat.repr counter).data := by
  have hdata : (mkId now counter).data
      = (Nat.repr now).data ++ '-' :: (Nat.repr counter).data := by
    simp [mkId, toString, String.data_append]
  rw [counterPart, hdata]
  rw [show ((Nat.repr now).data ++ '-' :: (Nat.repr counter).data).reverse
      = (Nat.repr counter).data.reverse ++ '-' :: (Nat.repr now).data.reverse by
    simp]
  rw [takeWhileAppend _ _ _ ?_ (by decide)]
  · simp
  · intro c hc
    have := natRepr_ne_dash counter c (List.mem_reverse.1 hc)
    simpa using this

lemma idCounter_mkId (now counter : Nat) : idCounter (mkId now counter) = counter := by
  rw [idCounter, counterPart_mkId, natRepr_val]

lemma mkId_inj_counter {n₁ c₁ n₂ c₂ : Nat} (h : mkId n₁ c₁ = mkId n₂ c₂) : c₁ = c₂ := by
  have := congrArg idCounter h
  rwa [idCounter_mkId, idCounter_mkId] at this

/-! ### Store lemmas -/

/-- The tags hitting the mutation/no-op cases of `processPayload`'s switch;
every other tag takes the entry-creating default path. -/
def isDirective (ty : String) : Bool :=
  ty == "color" || ty == "label" || ty == "size" || ty == "new_screen" ||
  ty == "clear_all" || ty == "hide" || ty == "remove" ||
  ty == "show_app" || ty == "hide_app" || ty == "confetti"

/-- The stored-payload object literal created by the default path. -/
def newEntry (st : StoreState) (uuid : String) (p : RayPayload) (meta : Value)
    (timestamp now : Nat) : StoredPayload :=
  { id := mkId now st.payloadCounter
    uuid := uuid
    type := p.type
    content := p.content
    origin := p.origin
    meta := meta
    timestamp := timestamp
    screen := st.currentScreen }

lemma processPayload_entry (st : StoreState) (u : String) (p : RayPayload)
    (meta : Value) (t now : Nat) (h : isDirective p.type = false) :
    processPayload st u p meta t now
      = .ok { st with
          payloads := st.payloads ++ [newEntry st u p meta t now]
          payloadCounter := st.payloadCounter + 1 } := by
  simp only [isDirective, Bool.or_eq_false_iff, beq_eq_false_iff_ne] at h
  obtain ⟨⟨⟨⟨⟨⟨⟨⟨⟨h1, h2⟩, h3⟩, h4⟩, h5⟩, h6⟩, h7⟩, h8⟩, h9⟩, h10⟩ := h
  simp [processPayload, newEntry, h1, h2, h3, h4, h5, h6, h7, h8, h9, h10]

lemma getProp_ok (v : Value) (k : String) (h : v.isNullish = false) :
    ∃ w, getProp v k = .ok w := by
  cases v <;> simp_all [getProp, Value.isNullish]
  rename_i fields
  cases fields.lookup k <;> simp

lemma applyFirstE_ok (u : String) (f : StoredPayload → Except Unit StoredPayload)
    (hf : ∀ q, ∃ q', f q = .ok q') :
    ∀ l, ∃ l', applyFirstE u f l = .ok l' := by
  intro l
  induction l with
  | nil => exact ⟨[], rfl⟩
  | cons q rest ih =>
    by_cases hq : (q.uuid == u) = true
    · obtain ⟨q', hq'⟩ := hf q
      exact ⟨q' :: rest, by simp [applyFirstE, hq, hq']⟩
    · obtain ⟨rest', hrest⟩ := ih
      exact ⟨q :: rest', by simp [applyFirstE, hq, hrest]⟩

lemma applyFirstE_no_match (u : String) (f : StoredPayload → Except Unit StoredPayload)
    (l : List StoredPayload) (h : ∀ q ∈ l, q.uuid ≠ u) :
    applyFirstE u f l = .ok l := by
  induction l with
  | nil => rfl
  | cons q rest ih =>
    have hq : (q.uuid == u) = false := by simp [h q (by simp)]
    have ih' := ih (fun r hr => h r (by simp [hr]))
    simp [applyFirstE, hq, ih']

lemma applyFirstE_found (u : String) (f : StoredPayload → Except Unit StoredPayload)
    (a b : List StoredPayload) (p p' : StoredPayload)
    (ha : ∀ q ∈ a, q.uuid ≠ u) (hp : p.uuid = u) (hf : f p = .ok p') :
    applyFirstE u f (a ++ p :: b) = .ok (a ++ p' :: b) := by
  induction a with
  | nil => simp [applyFirstE, hp, hf]
  | cons q rest ih =>
    have hq : (q.uuid == u) = false := by simp [ha q (by simp)]
    have ih' := ih (fun r hr => ha r (by simp [hr]))
    simp [applyFirstE, hq, ih']

lemma applyToPayload_no_match (u : String) (f : StoredPayload → Except Unit StoredPayload)
    (l : List StoredPayload) (h : ∀ q ∈ l, q.uuid ≠ u) :
    applyToPayload u f l = .ok l := by
  have := applyFirstE_no_match u f l.reverse (fun q hq => h q (List.mem_reverse.1 hq))
  simp [applyToPayload, this]

/-- The scan from the end of the array modifies exactly the last match. -/
lemma applyToPayload_last (u : String) (f : StoredPayload → Except Unit StoredPayload)
    (l₁ l₂ : List StoredPayload) (p p' : StoredPayload)
    (h₂ : ∀ q ∈ l₂, q.uuid ≠ u) (hp : p.uuid = u) (hf : f p = .ok p') :
    applyToPayload u f (l₁ ++ p :: l₂) = .ok (l₁ ++ p' :: l₂) := by
  have hrev : (l₁ ++ p :: l₂).reverse = l₂.reverse ++ p :: l₁.reverse := by
    simp
  have := applyFirstE_found u f l₂.reverse l₁.reverse p p'
    (fun q hq => h₂ q (List.mem_reverse.1 hq)) hp hf
  simp [applyToPayload, hrev, this]

/-- The trim of `addRequest` as a function: keep the most recent `n`. -/
def trimTo (n : Nat) (l : List StoredPayload) : List StoredPayload :=
  if l.length > n then l.drop (l.length - n) else l

lemma trimTo_eq_drop (n : Nat) (l : List StoredPayload) :
    trimTo n l = l.drop (l.length - n) := by
  rw [trimTo]
  split
  · rfl
  · rename_i hle
    have : l.length - n = 0 := by omega
    rw [this, List.drop_zero]

lemma trimTo_length_le (n : Nat) (l : List StoredPayload) :
    (trimTo n l).length ≤ max n l.length := by
  rw [trimTo_eq_drop, List.length_drop]
  omega

lemma trimTo_absorb (n : Nat) (l m : List StoredPayload) :
    trimTo n (trimTo n l ++ m) = trimTo n (l ++ m) := by
  rw [trimTo_eq_drop, trimTo_eq_drop, trimTo_eq_drop, List.length_append,
    List.length_append, List.length_drop]
  rw [List.drop_append_eq_append_drop, List.drop_append_eq_append_drop,
    List.drop_drop, List.length_drop]
  by_cases h1 : l.length ≤ n
  · congr 1 <;> congr 1 <;> omega
  · congr 1
    · congr 1
      omega
    · congr 1
      omega

/-! ### Unfolding equations for the directive branches -/

lemma processPayload_color (st : StoreState) (u : String) (c o meta : Value) (t now : Nat) :
    processPayload st u ⟨"color", c, o⟩ meta t now
      = match applyToPayload u (setColor c) st.payloads with
        | .error e => .error e
        | .ok pls => .ok { st with payloads := pls } := rfl

lemma processPayload_label (st : StoreState) (u : String) (c o meta : Value) (t now : Nat) :
    processPayload st u ⟨"label", c, o⟩ meta t now
      = match applyToPayload u (setLabel c) st.payloads with
        | .error e => .error e
        | .ok pls => .ok { st with payloads := pls } := rfl

lemma processPayload_size (st : StoreState) (u : String) (c o meta : Value) (t now : Nat) :
    processPayload st u ⟨"size", c, o⟩ meta t now
      = match applyToPayload u (setSize c) st.payloads with
        | .error e => .error e
        | .ok pls => .ok { st with payloads := pls } := rfl

lemma processPayload_new_screen (st : StoreState) (u : String) (c o meta : Value) (t now : Nat) :
    processPayload st u ⟨"new_screen", c, o⟩ meta t now
      = match getProp c "name" with
        | .error e => .error e
        | .ok v => .ok { st with currentScreen := v } := rfl

lemma processPayload_clear_all (st : StoreState) (u : String) (c o meta : Value) (t now : Nat) :
    processPayload st u ⟨"clear_all", c, o⟩ meta t now
      = .ok { st with payloads := [] } := rfl

lemma processPayload_hide (st : StoreState) (u : String) (c o meta : Value) (t now : Nat) :
    processPayload st u ⟨"hide", c, o⟩ meta t now
      = match applyToPayload u setHidden st.payloads with
        | .error e => .error e
        | .ok pls => .ok { st with payloads := pls } := rfl

lemma processPayload_remove (st : StoreState) (u : String) (c o meta : Value) (t now : Nat) :
    processPayload st u ⟨"remove", c, o⟩ meta t now
      = .ok { st with payloads := st.payloads.filter (fun q => q.uuid != u) } := rfl

/-! ### Totality under non-nullish directive content -/

/-- The only event contents ever dereferenced are those of the
`color`/`label`/`size`/`new_screen` cases; `contentSafe` asks that those (and
only those) are not nullish. -/
def contentSafe (p : RayPayload) : Bool :=
  if p.type == "color" || p.type == "label" || p.type == "size" ||
     p.type == "new_screen" then !p.content.isNullish
  else true

lemma applyToPayload_ok (u : String) (f : StoredPayload → Except Unit StoredPayload)
    (hf : ∀ q, ∃ q', f q = .ok q') (l : List StoredPayload) :
    ∃ l', applyToPayload u f l = .ok l' := by
  obtain ⟨r, hr⟩ := applyFirstE_ok u f hf l.reverse
  exact ⟨r.reverse, by simp [applyToPayload, hr]⟩

lemma setColor_ok (c : Value) (h : c.isNullish = false) :
    ∀ q, ∃ q', setColor c q = .ok q' := by
  intro q
  obtain ⟨w, hw⟩ := getProp_ok c "color" h
  exact ⟨{ q with color := w }, by simp [setColor, hw]⟩

lemma setLabel_ok (c : Value) (h : c.isNullish = false) :
    ∀ q, ∃ q', setLabel c q = .ok q' := by
  intro q
  obtain ⟨w, hw⟩ := getProp_ok c "label" h
  exact ⟨{ q with label := w }, by simp [setLabel, hw]⟩

lemma setSize_ok (c : Value) (h : c.isNullish = false) :
    ∀ q, ∃ q', setSize c q = .ok q' := by
  intro q
  obtain ⟨w, hw⟩ := getProp_ok c "size" h
  exact ⟨{ q with size := w }, by simp [setSize, hw]⟩

lemma processPayload_ok (st : StoreState) (u : String) (p : RayPayload)
    (meta : Value) (t now : Nat) (h : contentSafe p = true) :
    ∃ st', processPayload st u p meta t now = .ok st' := by
  by_cases h1 : (p.type == "color") = true
  · have hc : p.content.isNullish = false := by
      simp [contentSafe, h1] at h
      simpa using h
    obtain ⟨l', hl⟩ := applyToPayload_ok u _ (setColor_ok p.content hc) st.payloads
    exact ⟨{ st with payloads := l' }, by simp [processPayload, h1, hl]⟩
  by_cases h2 : (p.type == "label") = true
  · have hc : p.content.isNullish = false := by
      simp [contentSafe, h2] at h
      simpa using h
    obtain ⟨l', hl⟩ := applyToPayload_ok u _ (setLabel_ok p.content hc) st.payloads
    exact ⟨{ st with payloads := l' }, by simp [processPayload, h1, h2, hl]⟩
  by_cases h3 : (p.type == "size") = true
  · have hc : p.content.isNullish = false := by
      simp [contentSafe, h3] at h
      simpa using h
    obtain ⟨l', hl⟩ := applyToPayload_ok u _ (setSize_ok p.content hc) st.payloads
    exact ⟨{ st with payloads := l' }, by simp [processPayload, h1, h2, h3, hl]⟩
  by_cases h4 : (p.type == "new_screen") = true
  · have hc : p.content.isNullish = false := by
      simp [contentSafe, h4] at h
      simpa using h
    obtain ⟨w, hw⟩ := getProp_ok p.content "name" hc
    exact ⟨{ st with currentScreen := w }, by simp [processPayload, h1, h2, h3, h4, hw]⟩
  by_cases h5 : (p.type == "clear_all") = true
  · exact ⟨{ st with payloads := [] }, by simp [processPayload, h1, h2, h3, h4, h5]⟩
  by_cases h6 : (p.type == "hide") = true
  · obtain ⟨l', hl⟩ := applyToPayload_ok u setHidden (fun q => ⟨_, rfl⟩) st.payloads
    exact ⟨{ st with payloads := l' }, by simp [processPayload, h1, h2, h3, h4, h5, h6, hl]⟩
  by_cases h7 : (p.type == "remove") = true
  · exact ⟨{ st with payloads := st.payloads.filter (fun q => q.uuid != u) },
      by simp [processPayload, h1, h2, h3, h4, h5, h6, h7]⟩
  by_cases h8 : (p.type == "show_app" || p.type == "hide_app" || p.type == "confetti") = true
  · exact ⟨st, by simp only [processPayload]; simp [h1, h2, h3, h4, h5, h6, h7, h8]⟩
  · refine ⟨_, processPayload_entry st u p meta t now ?_⟩
    simp only [isDirective]
    simp only [Bool.or_eq_true] at h8
    push_neg at h8
    simp_all

lemma processAll_ok (u : String) (meta : Value) (t : Nat) (now : Nat → Nat) :
    ∀ (l : List RayPayload) (st : StoreState) (i : Nat),
      (∀ p ∈ l, contentSafe p = true) →
      ∃ st', processAll u meta t now st l i = .ok st' := by
  intro l
  induction l with
  | nil => exact fun st i _ => ⟨st, rfl⟩
  | cons p rest ih =>
    intro st i h
    obtain ⟨st₁, h₁⟩ := processPayload_ok st u p meta t (now i) (h p (by simp))
    obtain ⟨st', h'⟩ := ih st₁ (i + 1) (fun q hq => h q (by simp [hq]))
    exact ⟨st', by simp [processAll, h₁, h']⟩

/-! ### Timestamp and counter bookkeeping -/

lemma setColor_timestamp {c : Value} {q q' : StoredPayload} (h : setColor c q = .ok q') :
    q'.timestamp = q.timestamp := by
  rw [setColor] at h
  cases hg : getProp c "color" with
  | error e => rw [hg] at h; cases h
  | ok v => rw [hg] at h; injection h with h; subst h; rfl

lemma setLabel_timestamp {c : Value} {q q' : StoredPayload} (h : setLabel c q = .ok q') :
    q'.timestamp = q.timestamp := by
  rw [setLabel] at h
  cases hg : getProp c "label" with
  | error e => rw [hg] at h; cases h
  | ok v => rw [hg] at h; injection h with h; subst h; rfl

lemma setSize_timestamp {c : Value} {q q' : StoredPayload} (h : setSize c q = .ok q') :
    q'.timestamp = q.timestamp := by
  rw [setSize] at h
  cases hg : getProp c "size" with
  | error e => rw [hg] at h; cases h
  | ok v => rw [hg] at h; injection h with h; subst h; rfl

lemma setHidden_timestamp {q q' : StoredPayload} (h : setHidden q = .ok q') :
    q'.timestamp = q.timestamp := by
  rw [setHidden] at h
  injection h with h
  subst h
  rfl

lemma applyFirstE_ts {u : String} {f : StoredPayload → Except Unit StoredPayload}
    (hf : ∀ x y, f x = .ok y → y.timestamp = x.timestamp) :
    ∀ (l l' : List StoredPayload), applyFirstE u f l = .ok l' →
      ∀ q ∈ l', ∃ r ∈ l, q.timestamp = r.timestamp := by
  intro l
  induction l with
  | nil =>
    intro l' h q hq
    rw [applyFirstE] at h
    injection h with h
    subst h
    simp at hq
  | cons x rest ih =>
    intro l' h q hq
    rw [applyFirstE] at h
    split at h
    · cases hfx : f x with
      | error e => rw [hfx] at h; cases h
      | ok x' =>
        rw [hfx] at h
        injection h with h
        subst h
        rcases List.mem_cons.1 hq with rfl | hq
        · exact ⟨x, by simp, hf x _ hfx⟩
        · exact ⟨q, by simp [hq], rfl⟩
    · cases hrest : applyFirstE u f rest with
      | error e => rw [hrest] at h; cases h
      | ok rest' =>
        rw [hrest] at h
        injection h with h
        subst h
        rcases List.mem_cons.1 hq with rfl | hq
        · exact ⟨q, by simp, rfl⟩
        · obtain ⟨r, hr, hts⟩ := ih rest' hrest q hq
          exact ⟨r, by simp [hr], hts⟩

lemma applyToPayload_ts {u : String} {f : StoredPayload → Except Unit StoredPayload}
    (hf : ∀ x y, f x = .ok y → y.timestamp = x.timestamp)
    {l l' : List StoredPayload} (h : applyToPayload u f l = .ok l') :
    ∀ q ∈ l', ∃ r ∈ l, q.timestamp = r.timestamp := by
  rw [applyToPayload] at h
  cases hr : applyFirstE u f l.reverse with
  | error e => rw [hr] at h; cases h
  | ok rr =>
    rw [hr] at h
    injection h with h
    subst h
    intro q hq
    obtain ⟨r, hrm, hts⟩ := applyFirstE_ts hf _ _ hr q (List.mem_reverse.1 hq)
    exact ⟨r, List.mem_reverse.1 hrm, hts⟩

/-- Per-event invariant: the counter never decreases, and every stored payload
afterwards carries either a timestamp already present or the batch date. -/
lemma processPayload_inv {st st'' : StoreState} {u : String} {p : RayPayload}
    {meta : Value} {t now : Nat}
    (h : processPayload st u p meta t now = .ok st'') :
    st.payloadCounter ≤ st''.payloadCounter ∧
    (∀ q ∈ st''.payloads,
      (∃ r ∈ st.payloads, q.timestamp = r.timestamp) ∨ q.timestamp = t) := by
  by_cases h1 : (p.type == "color") = true
  · rw [processPayload, if_pos h1] at h
    cases happ : applyToPayload u (setColor p.content) st.payloads with
    | error e => rw [happ] at h; cases h
    | ok pls =>
      rw [happ] at h
      injection h with h
      subst h
      exact ⟨Nat.le_refl _,
        fun q hq => .inl (applyToPayload_ts (fun x y hxy => setColor_timestamp hxy) happ q hq)⟩
  by_cases h2 : (p.type == "label") = true
  · rw [processPayload, if_neg h1, if_pos h2] at h
    cases happ : applyToPayload u (setLabel p.content) st.payloads with
    | error e => rw [happ] at h; cases h
    | ok pls =>
      rw [happ] at h
      injection h with h
      subst h
      exact ⟨Nat.le_refl _,
        fun q hq => .inl (applyToPayload_ts (fun x y hxy => setLabel_timestamp hxy) happ q hq)⟩
  by_cases h3 : (p.type == "size") = true
  · rw [processPayload, if_neg h1, if_neg h2, if_pos h3] at h
    cases happ : applyToPayload u (setSize p.content) st.payloads with
    | error e => rw [happ] at h; cases h
    | ok pls =>
      rw [happ] at h
      injection h with h
      subst h
      exact ⟨Nat.le_refl _,
        fun q hq => .inl (applyToPayload_ts (fun x y hxy => setSize_timestamp hxy) happ q hq)⟩
  by_cases h4 : (p.type == "new_screen") = true
  · rw [processPayload, if_neg h1, if_neg h2, if_neg h3, if_pos h4] at h
    cases hg : getProp p.content "name" with
    | error e => rw [hg] at h; cases h
    | ok v =>
      rw [hg] at h
      injection h with h
      subst h
      exact ⟨Nat.le_refl _, fun q hq => .inl ⟨q, hq, rfl⟩⟩
  by_cases h5 : (p.type == "clear_all") = true
  · rw [processPayload, if_neg h1, if_neg h2, if_neg h3, if_neg h4, if_pos h5] at h
    injection h with h
    subst h
    exact ⟨Nat.le_refl _, fun q hq => absurd hq (by simp)⟩
  by_cases h6 : (p.type == "hide") = true
  · rw [processPayload, if_neg h1, if_neg h2, if_neg h3, if_neg h4, if_neg h5,
      if_pos h6] at h
    cases happ : applyToPayload u setHidden st.payloads with
    | error e => rw [happ] at h; cases h
    | ok pls =>
      rw [happ] at h
      injection h with h
      subst h
      exact ⟨Nat.le_refl _,
        fun q hq => .inl (applyToPayload_ts (fun x y hxy => setHidden_timestamp hxy) happ q hq)⟩
  by_cases h7 : (p.type == "remove") = true
  · rw [processPayload, if_neg h1, if_neg h2, if_neg h3, if_neg h4, if_neg h5,
      if_neg h6, if_pos h7] at h
    injection h with h
    subst h
    exact ⟨Nat.le_refl _, fun q hq => .inl ⟨q, List.mem_of_mem_filter hq, rfl⟩⟩
  by_cases h8 : (p.type == "show_app" || p.type == "hide_app" || p.type == "confetti") = true
  · rw [processPayload, if_neg h1, if_neg h2, if_neg h3, if_neg h4, if_neg h5,
      if_neg h6, if_neg h7, if_pos h8] at h
    injection h with h
    subst h
    exact ⟨Nat.le_refl _, fun q hq => .inl ⟨q, hq, rfl⟩⟩
  · have hdir : isDirective p.type = false := by
      simp only [Bool.or_eq_true] at h8
      push_neg at h8
      simp only [isDirective]
      simp_all
    rw [processPayload_entry st u p meta t now hdir] at h
    injection h with h
    subst h
    refine ⟨Nat.le_succ _, ?_⟩
    intro q hq
    rcases List.mem_append.1 hq with hq | hq
    · exact .inl ⟨q, hq, rfl⟩
    · simp at hq
      subst hq
      exact .inr rfl

lemma processAll_inv {u : String} {meta : Value} {t : Nat} {now : Nat → Nat} :
    ∀ (l : List RayPayload) (st : StoreState) (i : Nat) {st'' : StoreState},
      processAll u meta t now st l i = .ok st'' →
      st.payloadCounter ≤ st''.payloadCounter ∧
      (∀ q ∈ st''.payloads,
        (∃ r ∈ st.payloads, q.timestamp = r.timestamp) ∨ q.timestamp = t) := by
  intro l
  induction l with
  | nil =>
    intro st i st'' h
    rw [processAll] at h
    injection h with h
    subst h
    exact ⟨Nat.le_refl _, fun q hq => .inl ⟨q, hq, rfl⟩⟩
  | cons p rest ih =>
    intro st i st'' h
    rw [processAll] at h
    cases hp : processPayload st u p meta t (now i) with
    | error e => rw [hp] at h; cases h
    | ok st₁ =>
      rw [hp] at h
      obtain ⟨hc1, hts1⟩ := processPayload_inv hp
      obtain ⟨hc2, hts2⟩ := ih st₁ (i + 1) h
      refine ⟨Nat.le_trans hc1 hc2, ?_⟩
      intro q hq
      rcases hts2 q hq with ⟨r, hr, hts⟩ | hqt
      · rcases hts1 r hr with ⟨r₂, hr₂, hts₂⟩ | hrt
        · exact .inl ⟨r₂, hr₂, hts.trans hts₂⟩
        · exact .inr (hts.trans hrt)
      · exact .inr hqt

lemma addRequest_eq_ok {st : StoreState} {req : RayRequest} {t : Nat} {now : Nat → Nat}
    {mid : StoreState}
    (h : processAll req.uuid req.meta t now st req.payloads 0 = .ok mid) :
    addRequest st req t now
      = .ok { mid with payloads := trimTo MAX_PAYLOADS mid.payloads } := by
  rw [addRequest, h]
  rfl

lemma addRequest_ok_inv {st : StoreState} {req : RayRequest} {t : Nat} {now : Nat → Nat}
    {st' : StoreState} (h : addRequest st req t now = .ok st') :
    ∃ mid, processAll req.uuid req.meta t now st req.payloads 0 = .ok mid ∧
      st' = { mid with payloads := trimTo MAX_PAYLOADS mid.payloads } := by
  rw [addRequest] at h
  cases hp : processAll req.uuid req.meta t now st req.payloads 0 with
  | error e => rw [hp] at h; cases h
  | ok mid =>
    rw [hp] at h
    injection h with h
    exact ⟨mid, rfl, h.symm⟩

/-! ### The one-entry-per-batch scenario (ordering of identifiers) -/

/-- One submitted batch of the ordering scenario: a correlation id, a single
event, the session metadata, and the two clock reads observed while the batch
is processed. -/
structure BatchSpec where
  uuid : String
  payload : RayPayload
  meta : Value := .undef
  time : Nat := 0
  now : Nat := 0

/-- Submit the batches one `addRequest` call after another. -/
def runSingles : StoreState → List BatchSpec → Except Unit StoreState
  | st, [] => .ok st
  | st, b :: rest =>
    match addRequest st ⟨b.uuid, [b.payload], b.meta⟩ b.time (fun _ => b.now) with
    | .error e => .error e
    | .ok st' => runSingles st' rest

/-- The stored entry the `i`-th batch of the scenario creates when the counter
stands at `c` and the current screen is `scr`. -/
def mkEntry (c : Nat) (scr : Value) (b : BatchSpec) : StoredPayload :=
  { id := mkId b.now c
    uuid := b.uuid
    type := b.payload.type
    content := b.payload.content
    origin := b.payload.origin
    meta := b.meta
    timestamp := b.time
    screen := scr }

def expectedEntries (c : Nat) (scr : Value) : List BatchSpec → List StoredPayload
  | [] => []
  | b :: rest => mkEntry c scr b :: expectedEntries (c + 1) scr rest

lemma trimTo_bound (n : Nat) (l : List StoredPayload) : (trimTo n l).length ≤ n := by
  rw [trimTo_eq_drop, List.length_drop]
  rcases Nat.le_total l.length n with h | h <;> omega

lemma addRequest_single (st : StoreState) (b : BatchSpec)
    (h : isDirective b.payload.type = false) :
    addRequest st ⟨b.uuid, [b.payload], b.meta⟩ b.time (fun _ => b.now)
      = .ok { payloads := trimTo MAX_PAYLOADS
                (st.payloads ++ [mkEntry st.payloadCounter st.currentScreen b])
              currentScreen := st.currentScreen
              payloadCounter := st.payloadCounter + 1 } := by
  have hp := processPayload_entry st b.uuid b.payload b.meta b.time b.now h
  have hall : processAll b.uuid b.meta b.time (fun _ => b.now) st [b.payload] 0
      = .ok { st with
          payloads := st.payloads ++ [newEntry st b.uuid b.payload b.meta b.time b.now]
          payloadCounter := st.payloadCounter + 1 } := by
    rw [processAll, hp]
    rfl
  exact @addRequest_eq_ok st ⟨b.uuid, [b.payload], b.meta⟩ b.time (fun _ => b.now) _ hall

lemma runSingles_entries : ∀ (specs : List BatchSpec) (st : StoreState),
    (∀ b ∈ specs, isDirective b.payload.type = false) →
    st.payloads.length ≤ MAX_PAYLOADS →
    runSingles st specs = .ok
      { payloads := trimTo MAX_PAYLOADS
          (st.payloads ++ expectedEntries st.payloadCounter st.currentScreen specs)
        currentScreen := st.currentScreen
        payloadCounter := st.payloadCounter + specs.length } := by
  intro specs
  induction specs with
  | nil =>
    intro st h hlen
    have htrim : trimTo MAX_PAYLOADS st.payloads = st.payloads := by
      rw [trimTo, if_neg]
      omega
    rw [runSingles]
    simp [expectedEntries, htrim]
  | cons b rest ih =>
    intro st h hlen
    have hstep : runSingles st (b :: rest)
        = runSingles
            { payloads := trimTo MAX_PAYLOADS
                (st.payloads ++ [mkEntry st.payloadCounter st.currentScreen b])
              currentScreen := st.currentScreen
              payloadCounter := st.payloadCounter + 1 } rest := by
      rw [runSingles, addRequest_single st b (h b (by simp))]
    rw [hstep, ih _ (fun x hx => h x (by simp [hx])) (trimTo_bound _ _)]
    have habs : trimTo MAX_PAYLOADS
        (trimTo MAX_PAYLOADS (st.payloads ++ [mkEntry st.payloadCounter st.currentScreen b])
          ++ expectedEntries (st.payloadCounter + 1) st.currentScreen rest)
        = trimTo MAX_PAYLOADS (st.payloads ++
            expectedEntries st.payloadCounter st.currentScreen (b :: rest)) := by
      rw [trimTo_absorb, List.append_assoc]
      rfl
    simp only [habs]
    congr 1
    simp [Nat.add_assoc, Nat.add_comm 1 rest.length]

lemma expectedEntries_length (c : Nat) (scr : Value) (specs : List BatchSpec) :
    (expectedEntries c scr specs).length = specs.length := by
  induction specs generalizing c with
  | nil => rfl
  | cons b rest ih => simp [expectedEntries, ih]

lemma expectedEntries_counter (c : Nat) (scr : Value) (specs : List BatchSpec) :
    ∀ e ∈ expectedEntries c scr specs, ∃ k n, c ≤ k ∧ e.id = mkId n k := by
  induction specs generalizing c with
  | nil => simp [expectedEntries]
  | cons b rest ih =>
    intro e he
    rcases List.mem_cons.1 he with rfl | he
    · exact ⟨c, b.now, Nat.le_refl _, rfl⟩
    · obtain ⟨k, n, hk, hid⟩ := ih (c + 1) e he
      exact ⟨k, n, by omega, hid⟩

lemma expectedEntries_idCounter_lt (c : Nat) (scr : Value) (specs : List BatchSpec) :
    ((expectedEntries c scr specs).map (fun p => idCounter p.id)).Pairwise (· < ·) := by
  induction specs generalizing c with
  | nil => simp [expectedEntries]
  | cons b rest ih =>
    simp only [expectedEntries, List.map_cons]
    refine List.Pairwise.cons ?_ (ih (c + 1))
    intro k hk
    simp only [List.mem_map] at hk
    obtain ⟨e, he, rfl⟩ := hk
    obtain ⟨k', n, hk', hid⟩ := expectedEntries_counter (c + 1) scr rest e he
    have hhead : (mkEntry c scr b).id = mkId b.now c := rfl
    rw [hhead, idCounter_mkId, hid, idCounter_mkId]
    omega

lemma expectedEntries_ids_nodup (c : Nat) (scr : Value) (specs : List BatchSpec) :
    ((expectedEntries c scr specs).map (fun p => p.id)).Pairwise (· ≠ ·) := by
  have h := expectedEntries_idCounter_lt c scr specs
  rw [List.pairwise_map] at h ⊢
  refine h.imp ?_
  intro a b hlt heq
  rw [heq] at hlt
  exact Nat.lt_irrefl _ hlt

/-! ### Bounds on `truncate` and the truncated previews -/

lemma mem_trimChars {c : Char} {l : List Char} (h : c ∈ trimChars l) : c ∈ l := by
  rw [trimChars] at h
  have h1 := List.mem_reverse.1 h
  have h2 := List.dropWhile_subset (l := (l.dropWhile jsWsChar).reverse) jsWsChar h1
  exact List.dropWhile_subset jsWsChar (List.mem_reverse.1 h2)

lemma truncate_length_le (s : String) : (truncate s).length ≤ 50 := by
  rw [truncate]
  split
  · assumption
  · rename_i hgt
    have h1 : (String.mk ((String.mk (trimChars
        (s.data.map (fun c => if c == '\n' then ' ' else c)))).data.take (50 - 3))).length
        ≤ 47 := by
      show (List.take (50 - 3) _).length ≤ 47
      rw [List.length_take]
      omega
    rw [String.length_append]
    have h2 : ("..." : String).length = 3 := rfl
    omega

lemma truncate_no_newline (s : String) : ∀ c ∈ (truncate s).data, c ≠ '\n' := by
  have hsingle : ∀ c ∈ trimChars (s.data.map (fun c => if c == '\n' then ' ' else c)),
      c ≠ '\n' := by
    intro c hc
    have := mem_trimChars hc
    simp only [List.mem_map] at this
    obtain ⟨d, _, rfl⟩ := this
    by_cases hd : (d == '\n') = true
    · simp [hd]
    · simp only [hd]
      simpa using hd
  rw [truncate]
  split
  · exact hsingle
  · intro c hc
    rw [String.data_append] at hc
    rcases List.mem_append.1 hc with hc | hc
    · exact hsingle c (List.take_subset _ _ hc)
    · have hdots : ("..." : String).data = ['.', '.', '.'] := rfl
      rw [hdots] at hc
      simp at hc
      subst hc
      decide

/-- Every preview routed through `truncate` is single line and at most 50
characters. -/
lemma previewTruncated_bounded (tc : TypedContent) (h : previewTruncated tc = true) :
    (getPreviewText tc).length ≤ 50 ∧ ∀ c ∈ (getPreviewText tc).data, c ≠ '\n' := by
  cases tc <;> simp only [previewTruncated] at h <;>
    first
      | exact (Bool.noConfusion h)
      | exact ⟨truncate_length_le _, truncate_no_newline _⟩

/-! ### Claim theorems -/

/-- C4: after every `addRequest` call that returns, the history holds at most
`MAX_PAYLOADS = 1000` entries; the trim is applied only to the state obtained
after the whole batch has been applied, and keeps exactly the most recent
`MAX_PAYLOADS` entries as a suffix (original relative order, age of creation
as the only criterion — hidden flags and screens are never consulted). -/
theorem retention_bound (st : StoreState) (req : RayRequest) (t : Nat)
    (now : Nat → Nat) (st' : StoreState)
    (h : addRequest st req t now = .ok st') :
    st'.payloads.length ≤ MAX_PAYLOADS ∧
    ∃ mid, processAll req.uuid req.meta t now st req.payloads 0 = .ok mid ∧
      st'.payloads = mid.payloads.drop (mid.payloads.length - MAX_PAYLOADS) := by
  obtain ⟨mid, hmid, rfl⟩ := addRequest_ok_inv h
  exact ⟨trimTo_bound _ _, mid, hmid, trimTo_eq_drop _ _⟩

def demoReq : RayRequest :=
  ⟨"u", [⟨"log", .obj [("values", .arr [.str "hi"])], .undef⟩], .undef⟩

def demoEntry : StoredPayload :=
  { id := "9-0"
    uuid := "u"
    type := "log"
    content := .obj [("values", .arr [.str "hi"])]
    origin := .undef
    meta := .undef
    timestamp := 5
    screen := .str "default" }

def demoSt : StoreState :=
  { payloads := [demoEntry], currentScreen := .str "default", payloadCounter := 1 }

theorem retention_bound_witness :
    demoSt.payloads.length ≤ MAX_PAYLOADS ∧
    ∃ mid, processAll demoReq.uuid demoReq.meta 5 (fun _ => 9) initState
        demoReq.payloads 0 = .ok mid ∧
      demoSt.payloads = mid.payloads.drop (mid.payloads.length - MAX_PAYLOADS) :=
  retention_bound initState demoReq 5 (fun _ => 9) demoSt (by rfl)

/-- C5: a `color`/`label`/`size`/`hide` directive mutates exactly the most
recently created stored entry whose uuid matches the batch uuid (the last
match of the array, i.e. no match may occur to its right), leaving every other
entry unchanged, and is a no-op on the whole store when no entry matches. -/
theorem directive_targets_most_recent :
    (∀ (st : StoreState) (u : String) (c o meta : Value) (t now : Nat)
        (l₁ l₂ : List StoredPayload) (p : StoredPayload) (v : Value),
        st.payloads = l₁ ++ p :: l₂ → p.uuid = u → (∀ q ∈ l₂, q.uuid ≠ u) →
        getProp c "color" = .ok v →
        processPayload st u ⟨"color", c, o⟩ meta t now
          = .ok { st with payloads := l₁ ++ { p with color := v } :: l₂ }) ∧
    (∀ (st : StoreState) (u : String) (c o meta : Value) (t now : Nat)
        (l₁ l₂ : List StoredPayload) (p : StoredPayload) (v : Value),
        st.payloads = l₁ ++ p :: l₂ → p.uuid = u → (∀ q ∈ l₂, q.uuid ≠ u) →
        getProp c "label" = .ok v →
        processPayload st u ⟨"label", c, o⟩ meta t now
          = .ok { st with payloads := l₁ ++ { p with label := v } :: l₂ }) ∧
    (∀ (st : StoreState) (u : String) (c o meta : Value) (t now : Nat)
        (l₁ l₂ : List StoredPayload) (p : StoredPayload) (v : Value),
        st.payloads = l₁ ++ p :: l₂ → p.uuid = u → (∀ q ∈ l₂, q.uuid ≠ u) →
        getProp c "size" = .ok v →
        processPayload st u ⟨"size", c, o⟩ meta t now
          = .ok { st with payloads := l₁ ++ { p with size := v } :: l₂ }) ∧
    (∀ (st : StoreState) (u : String) (c o meta : Value) (t now : Nat)
        (l₁ l₂ : List StoredPayload) (p : StoredPayload),
        st.payloads = l₁ ++ p :: l₂ → p.uuid = u → (∀ q ∈ l₂, q.uuid ≠ u) →
        processPayload st u ⟨"hide", c, o⟩ meta t now
          = .ok { st with payloads := l₁ ++ { p with hidden := true } :: l₂ }) ∧
    (∀ (st : StoreState) (u : String) (c o meta : Value) (t now : Nat) (ty : String),
        (ty == "color" || ty == "label" || ty == "size" || ty == "hide") = true →
        (∀ q ∈ st.payloads, q.uuid ≠ u) →
        processPayload st u ⟨ty, c, o⟩ meta t now = .ok st) := by
  refine ⟨?_, ?_, ?_, ?_, ?_⟩
  · intro st u c o meta t now l₁ l₂ p v hsp hpu h₂ hgp
    rw [processPayload_color, hsp,
      applyToPayload_last u (setColor c) l₁ l₂ p { p with color := v } h₂ hpu
        (by simp [setColor, hgp])]
  · intro st u c o meta t now l₁ l₂ p v hsp hpu h₂ hgp
    rw [processPayload_label, hsp,
      applyToPayload_last u (setLabel c) l₁ l₂ p { p with label := v } h₂ hpu
        (by simp [setLabel, hgp])]
  · intro st u c o meta t now l₁ l₂ p v hsp hpu h₂ hgp
    rw [processPayload_size, hsp,
      applyToPayload_last u (setSize c) l₁ l₂ p { p with size := v } h₂ hpu
        (by simp [setSize, hgp])]
  · intro st u c o meta t now l₁ l₂ p hsp hpu h₂
    rw [processPayload_hide, hsp,
      applyToPayload_last u setHidden l₁ l₂ p { p with hidden := true } h₂ hpu
        (by simp [setHidden])]
  · intro st u c o meta t now ty hty hnone
    simp only [Bool.or_eq_true, beq_iff_eq] at hty
    rcases hty with ((rfl | rfl) | rfl) | rfl
    · rw [processPayload_color, applyToPayload_no_match u _ _ hnone]
    · rw [processPayload_label, applyToPayload_no_match u _ _ hnone]
    · rw [processPayload_size, applyToPayload_no_match u _ _ hnone]
    · rw [processPayload_hide, applyToPayload_no_match u _ _ hnone]

def demoE1 : StoredPayload :=
  { id := "0-0", uuid := "abc", type := "log", content := .null, timestamp := 0
    screen := .str "default" }

def demoE2 : StoredPayload :=
  { id := "0-1", uuid := "abc", type := "log", content := .null, timestamp := 0
    screen := .str "default" }

def demoPairSt : StoreState :=
  { payloads := [demoE1, demoE2], currentScreen := .str "default", payloadCounter := 2 }

theorem directive_targets_witness :
    processPayload demoPairSt "abc"
        ⟨"color", .obj [("color", .str "red")], .undef⟩ .undef 0 0
      = .ok { demoPairSt with
          payloads := [demoE1] ++ { demoE2 with color := .str "red" } :: [] } :=
  directive_targets_most_recent.1 demoPairSt "abc" (.obj [("color", .str "red")])
    .undef .undef 0 0 [demoE1] [] demoE2 (.str "red") rfl rfl (by simp) rfl

/-- C9: hiding removes the targeted entry from the non-hidden view but keeps
it (and the history length) in the all-entries view; a remove directive
deletes every entry sharing the batch uuid from both views. -/
theorem hide_vs_remove :
    (∀ (st : StoreState) (u : String) (c o meta : Value) (t now : Nat)
        (l₁ l₂ : List StoredPayload) (p : StoredPayload),
        st.payloads = l₁ ++ p :: l₂ → p.uuid = u → (∀ q ∈ l₂, q.uuid ≠ u) →
        processPayload st u ⟨"hide", c, o⟩ meta t now
          = .ok { st with payloads := l₁ ++ { p with hidden := true } :: l₂ } ∧
        { p with hidden := true }
          ∈ getAllPayloads { st with payloads := l₁ ++ { p with hidden := true } :: l₂ } ∧
        { p with hidden := true }
          ∉ getPayloads { st with payloads := l₁ ++ { p with hidden := true } :: l₂ } ∧
        (getAllPayloads { st with payloads := l₁ ++ { p with hidden := true } :: l₂ }).length
          = (getAllPayloads st).length) ∧
    (∀ (st : StoreState) (u : String) (c o meta : Value) (t now : Nat),
        processPayload st u ⟨"remove", c, o⟩ meta t now
          = .ok { st with payloads := st.payloads.filter (fun q => q.uuid != u) } ∧
        (∀ p : StoredPayload, p.uuid = u →
          p ∉ getAllPayloads
              { st with payloads := st.payloads.filter (fun q => q.uuid != u) } ∧
          p ∉ getPayloads
              { st with payloads := st.payloads.filter (fun q => q.uuid != u) })) := by
  constructor
  · intro st u c o meta t now l₁ l₂ p hsp hpu h₂
    refine ⟨?_, ?_, ?_, ?_⟩
    · rw [processPayload_hide, hsp,
        applyToPayload_last u setHidden l₁ l₂ p { p with hidden := true } h₂ hpu
        (by simp [setHidden])]
    · simp [getAllPayloads]
    · intro hmem
      simp only [getPayloads, List.mem_filter] at hmem
      simp at hmem
    · simp [getAllPayloads, hsp]
  · intro st u c o meta t now
    refine ⟨processPayload_remove st u c o meta t now, ?_⟩
    intro p hp
    constructor
    · intro hmem
      simp only [getAllPayloads, List.mem_filter] at hmem
      rw [hp] at hmem
      simp at hmem
    · intro hmem
      simp only [getPayloads, List.mem_filter, List.mem_filter] at hmem
      rw [hp] at hmem
      simp at hmem

theorem hide_vs_remove_witness :
    (processPayload demoPairSt "abc" ⟨"hide", Value.null, .undef⟩ .undef 0 0
        = .ok { demoPairSt with
            payloads := [demoE1] ++ { demoE2 with hidden := true } :: [] } ∧
      { demoE2 with hidden := true }
        ∈ getAllPayloads { demoPairSt with
            payloads := [demoE1] ++ { demoE2 with hidden := true } :: [] } ∧
      { demoE2 with hidden := true }
        ∉ getPayloads { demoPairSt with
            payloads := [demoE1] ++ { demoE2 with hidden := true } :: [] } ∧
      (getAllPayloads { demoPairSt with
          payloads := [demoE1] ++ { demoE2 with hidden := true } :: [] }).length
        = (getAllPayloads demoPairSt).length) ∧
    (∀ p : StoredPayload, p.uuid = "abc" →
      p ∉ getAllPayloads { demoPairSt with
          payloads := demoPairSt.payloads.filter (fun q => q.uuid != "abc") } ∧
      p ∉ getPayloads { demoPairSt with
          payloads := demoPairSt.payloads.filter (fun q => q.uuid != "abc") }) :=
  ⟨hide_vs_remove.1 demoPairSt "abc" Value.null .undef .undef 0 0
      [demoE1] [] demoE2 rfl rfl (by simp),
    (hide_vs_remove.2 demoPairSt "abc" Value.null .undef .undef 0 0).2⟩

/-- C6: a `clear_all` event discards the whole history immediately and touches
nothing else (the counter and the current screen survive, so the all-entries
view and the screens set are empty right after it, later events of the same
batch append to the now-empty history, and the next created entry takes the
still-monotone counter, strictly above every previously issued one). -/
theorem clear_all_semantics :
    (∀ (st : StoreState) (u : String) (c o meta : Value) (t now : Nat),
        processPayload st u ⟨"clear_all", c, o⟩ meta t now
          = .ok { st with payloads := [] }) ∧
    (∀ st : StoreState, st.payloads = [] →
        getAllPayloads st = [] ∧ getPayloads st = [] ∧ getScreens st = []) ∧
    (∀ (st : StoreState) (u : String) (p : RayPayload) (meta : Value) (t now : Nat),
        isDirective p.type = false →
        processPayload st u p meta t now
          = .ok { st with
              payloads := st.payloads ++ [newEntry st u p meta t now]
              payloadCounter := st.payloadCounter + 1 }) ∧
    (∀ (st st'' : StoreState) (u : String) (p : RayPayload) (meta : Value) (t now : Nat),
        processPayload st u p meta t now = .ok st'' →
        st.payloadCounter ≤ st''.payloadCounter) ∧
    (∀ (st : StoreState) (u : String) (p : RayPayload) (meta : Value) (t now : Nat),
        (newEntry st u p meta t now).id = mkId now st.payloadCounter ∧
        idCounter (newEntry st u p meta t now).id = st.payloadCounter) := by
  refine ⟨processPayload_clear_all, ?_, processPayload_entry, ?_, ?_⟩
  · intro st h
    refine ⟨h, ?_, ?_⟩
    · simp [getPayloads, h]
    · simp [getScreens, h]
  · intro st st'' u p meta t now h
    exact (processPayload_inv h).1
  · intro st u p meta t now
    exact ⟨rfl, idCounter_mkId _ _⟩

def demoClearSt : StoreState :=
  { payloads := [demoEntry], currentScreen := .str "s1", payloadCounter := 1 }

theorem clear_all_witness :
    (processPayload demoClearSt "u" ⟨"clear_all", Value.null, .undef⟩ .undef 0 0
        = .ok { demoClearSt with payloads := [] }) ∧
    getAllPayloads { demoClearSt with payloads := [] } = [] ∧
    getScreens { demoClearSt with payloads := [] } = [] ∧
    idCounter (newEntry { demoClearSt with payloads := [] } "u"
        ⟨"log", Value.null, .undef⟩ .undef 7 9).id = 1 :=
  ⟨clear_all_semantics.1 demoClearSt "u" Value.null .undef .undef 0 0,
    (clear_all_semantics.2.1 { demoClearSt with payloads := [] } rfl).1,
    (clear_all_semantics.2.1 { demoClearSt with payloads := [] } rfl).2.2,
    (clear_all_semantics.2.2.2.2 { demoClearSt with payloads := [] } "u"
        ⟨"log", Value.null, .undef⟩ .undef 7 9).2⟩

/-- C8: a `new_screen` event sets the process-wide current screen from its
content's `name` and changes nothing else (in particular it ignores the batch
uuid and leaves every stored entry, hence every previously stamped screen,
untouched); every entry created later is stamped with the current screen at
its own creation time. -/
theorem screen_stamping :
    (∀ (st : StoreState) (u : String) (c o meta : Value) (t now : Nat) (v : Value),
        getProp c "name" = .ok v →
        processPayload st u ⟨"new_screen", c, o⟩ meta t now
          = .ok { st with currentScreen := v }) ∧
    (∀ (st : StoreState) (u : String) (p : RayPayload) (meta : Value) (t now : Nat),
        isDirective p.type = false →
        processPayload st u p meta t now
          = .ok { st with
              payloads := st.payloads ++ [newEntry st u p meta t now]
              payloadCounter := st.payloadCounter + 1 } ∧
        (newEntry st u p meta t now).screen = st.currentScreen) := by
  constructor
  · intro st u c o meta t now v hgp
    rw [processPayload_new_screen, hgp]
  · intro st u p meta t now h
    exact ⟨processPayload_entry st u p meta t now h, rfl⟩

theorem screen_stamping_witness :
    (processPayload initState "u"
        ⟨"new_screen", Value.obj [("name", Value.str "debug")], .undef⟩ .undef 0 0
      = .ok { initState with currentScreen := Value.str "debug" }) ∧
    (newEntry { initState with currentScreen := Value.str "debug" } "u2"
        ⟨"log", Value.null, .undef⟩ .undef 1 2).screen = Value.str "debug" :=
  ⟨screen_stamping.1 initState "u" (Value.obj [("name", Value.str "debug")])
      .undef .undef 0 0 (Value.str "debug") rfl,
    (screen_stamping.2 { initState with currentScreen := Value.str "debug" } "u2"
      ⟨"log", Value.null, .undef⟩ .undef 1 2 (by decide)).2⟩

/-- C10: the creation timestamp stamped on entries is the batch date taken
once at the start of `addRequest`: after a successful call every stored entry
carries either a timestamp that already existed before the call or exactly the
batch date `t`, so all entries created by one call share the identical
timestamp (and only their identifiers distinguish their creation order). -/
theorem batch_timestamp_shared (st : StoreState) (req : RayRequest) (t : Nat)
    (now : Nat → Nat) (st' : StoreState) (h : addRequest st req t now = .ok st') :
    (∀ q ∈ st'.payloads,
      (∃ r ∈ st.payloads, q.timestamp = r.timestamp) ∨ q.timestamp = t) ∧
    (∀ q ∈ st'.payloads, ∀ q₂ ∈ st'.payloads,
      (∀ r ∈ st.payloads, q.timestamp ≠ r.timestamp) →
      (∀ r ∈ st.payloads, q₂.timestamp ≠ r.timestamp) →
      q.timestamp = q₂.timestamp) := by
  obtain ⟨mid, hmid, rfl⟩ := addRequest_ok_inv h
  have hsub : ∀ q ∈ trimTo MAX_PAYLOADS mid.payloads, q ∈ mid.payloads := by
    intro q hq
    rw [trimTo_eq_drop] at hq
    exact List.drop_subset _ _ hq
  have hinv := (processAll_inv req.payloads st 0 hmid).2
  have hts : ∀ q ∈ trimTo MAX_PAYLOADS mid.payloads,
      (∃ r ∈ st.payloads, q.timestamp = r.timestamp) ∨ q.timestamp = t :=
    fun q hq => hinv q (hsub q hq)
  refine ⟨hts, ?_⟩
  intro q hq q₂ hq₂ hfresh hfresh₂
  have h1 : q.timestamp = t := by
    rcases hts q hq with ⟨r, hr, hqr⟩ | ht
    · exact absurd hqr (hfresh r hr)
    · exact ht
  have h2 : q₂.timestamp = t := by
    rcases hts q₂ hq₂ with ⟨r, hr, hqr⟩ | ht
    · exact absurd hqr (hfresh₂ r hr)
    · exact ht
  rw [h1, h2]

def demoTwoLogReq : RayRequest :=
  ⟨"u", [⟨"log", .null, .undef⟩, ⟨"text", .null, .undef⟩], .undef⟩

def demoTwoSt : StoreState :=
  { payloads :=
      [{ id := "9-0", uuid := "u", type := "log", content := .null,
         timestamp := 5, screen := .str "default" },
       { id := "9-1", uuid := "u", type := "text", content := .null,
         timestamp := 5, screen := .str "default" }]
    currentScreen := .str "default"
    payloadCounter := 2 }

theorem batch_timestamp_witness :
    (∀ q ∈ demoTwoSt.payloads,
      (∃ r ∈ initState.payloads, q.timestamp = r.timestamp) ∨ q.timestamp = 5) ∧
    (∀ q ∈ demoTwoSt.payloads, ∀ q₂ ∈ demoTwoSt.payloads,
      (∀ r ∈ initState.payloads, q.timestamp ≠ r.timestamp) →
      (∀ r ∈ initState.payloads, q₂.timestamp ≠ r.timestamp) →
      q.timestamp = q₂.timestamp) :=
  batch_timestamp_shared initState demoTwoLogReq 5 (fun _ => 9) demoTwoSt (by rfl)

/-- C3: submitting any sequence of single-entry-creating-event batches to a
fresh store and reading all entries yields exactly the submitted entries in
submission order (the most recent `MAX_PAYLOADS`-suffix of them once the
retention bound kicks in), with pairwise-distinct identifier strings whose
embedded counters are strictly increasing in creation order. -/
theorem ordering_unique_increasing (specs : List BatchSpec)
    (h : ∀ b ∈ specs, isDirective b.payload.type = false) :
    ∃ st', runSingles initState specs = .ok st' ∧
      getAllPayloads st'
        = (expectedEntries 0 (Value.str "default") specs).drop
            ((expectedEntries 0 (Value.str "default") specs).length - MAX_PAYLOADS) ∧
      (expectedEntries 0 (Value.str "default") specs).length = specs.length ∧
      ((getAllPayloads st').map (fun p => p.id)).Pairwise (fun a b => a ≠ b) ∧
      ((getAllPayloads st').map (fun p => idCounter p.id)).Pairwise
        (fun a b => a < b) := by
  have hrun := runSingles_entries specs initState h (by simp [initState])
  refine ⟨_, hrun, ?_, expectedEntries_length _ _ _, ?_, ?_⟩
  · show trimTo MAX_PAYLOADS ([] ++ expectedEntries 0 (Value.str "default") specs) = _
    rw [List.nil_append, trimTo_eq_drop]
  · show ((trimTo MAX_PAYLOADS
        ([] ++ expectedEntries 0 (Value.str "default") specs)).map
          (fun p => p.id)).Pairwise (fun a b => a ≠ b)
    rw [List.nil_append, trimTo_eq_drop, List.map_drop]
    exact (expectedEntries_ids_nodup 0 _ specs).sublist (List.drop_sublist _ _)
  · show ((trimTo MAX_PAYLOADS
        ([] ++ expectedEntries 0 (Value.str "default") specs)).map
          (fun p => idCounter p.id)).Pairwise (fun a b => a < b)
    rw [List.nil_append, trimTo_eq_drop, List.map_drop]
    exact (expectedEntries_idCounter_lt 0 _ specs).sublist (List.drop_sublist _ _)

def demoSpecs : List BatchSpec :=
  [⟨"u1", ⟨"log", .null, .undef⟩, .undef, 3, 7⟩,
   ⟨"u2", ⟨"text", .obj [("content", .str "x")], .undef⟩, .undef, 4, 8⟩]

theorem ordering_witness :
    ∃ st', runSingles initState demoSpecs = .ok st' ∧
      getAllPayloads st'
        = (expectedEntries 0 (Value.str "default") demoSpecs).drop
            ((expectedEntries 0 (Value.str "default") demoSpecs).length - MAX_PAYLOADS) ∧
      (expectedEntries 0 (Value.str "default") demoSpecs).length = demoSpecs.length ∧
      ((getAllPayloads st').map (fun p => p.id)).Pairwise (fun a b => a ≠ b) ∧
      ((getAllPayloads st').map (fun p => idCounter p.id)).Pairwise
        (fun a b => a < b) :=
  ordering_unique_increasing demoSpecs (by decide)

/-- C1 (amended): `addRequest` never throws and never rejects a batch
provided no `color`/`label`/`size`/`new_screen` event carries null or
undefined content; no event is ever skipped — in particular an
entry-creating event is stored verbatim whatever its content value
(shape-mismatched, primitive, or null alike).  (As stated originally the
claim is false: a directive of those four kinds with nullish content makes
the property read inside `processPayload` throw a `TypeError`, which aborts
the rest of the batch — see the counterexample.) -/
theorem addRequest_no_throw_amended :
    (∀ (st : StoreState) (req : RayRequest) (t : Nat) (now : Nat → Nat),
        (∀ p ∈ req.payloads, contentSafe p = true) →
        ∃ st', addRequest st req t now = .ok st') ∧
    (∀ (st : StoreState) (u : String) (p : RayPayload) (meta : Value) (t now : Nat),
        isDirective p.type = false →
        processPayload st u p meta t now
          = .ok { st with
              payloads := st.payloads ++ [newEntry st u p meta t now]
              payloadCounter := st.payloadCounter + 1 }) := by
  constructor
  · intro st req t now h
    obtain ⟨mid, hmid⟩ := processAll_ok req.uuid req.meta t now req.payloads st 0 h
    exact ⟨_, addRequest_eq_ok hmid⟩
  · exact processPayload_entry

/-- C1 counterexample: a batch holding a single `new_screen` event with null
content makes `addRequest` throw (the read of `content.name`), so the batch
is rejected rather than the event being skipped. -/
theorem addRequest_throw_cex :
    addRequest initState ⟨"u", [⟨"new_screen", Value.null, .undef⟩], .undef⟩ 0
      (fun _ => 0) = .error () := rfl

def demoMixedReq : RayRequest :=
  ⟨"u",
   [⟨"log", .null, .undef⟩,
    ⟨"table", .num 3, .undef⟩,
    ⟨"color", .obj [], .undef⟩,
    ⟨"unknown_tag", .str "x", .undef⟩],
   .undef⟩

theorem addRequest_no_throw_witness :
    (∀ p ∈ demoMixedReq.payloads, contentSafe p = true) ∧
    (∃ st', addRequest initState demoMixedReq 0 (fun _ => 0) = .ok st') :=
  ⟨by decide,
    addRequest_no_throw_amended.1 initState demoMixedReq 0 (fun _ => 0) (by decide)⟩

/-- C2 (amended): previews follow the per-tag summarization rules — log
entries join their stringified values with `", "`, exception entries show
`Class: message`, query entries show the raw statement text, table entries
show a row count, boolean and null entries show their literal value, and the
fallback shows the tag name — and every preview routed through `truncate`
(log, custom, exception, the three query tags, notify, application_log,
text/html/xml, json, image, file_contents) is a single-line string of at most
50 characters with a `...` marker when cut.  (As stated originally the claim
is false: the `measure`, `carbon` and `caller` previews and the fallback
return their text verbatim, so they can exceed 50 characters or keep
newlines — see the counterexample.) -/
theorem preview_rules_amended :
    (∀ (values : List Value) (label : Option String),
        getPreviewText (.log values label)
          = truncate (String.intercalate ", " (values.map stringify0))) ∧
    (∀ (cls message : String) (frames : List Frame),
        getPreviewText (.exception cls message frames)
          = truncate (cls ++ ": " ++ message)) ∧
    (∀ q : QueryContent, getPreviewText (.executed_query q) = truncate q.sql) ∧
    (∀ q : QueryContent, getPreviewText (.slow_query q) = truncate q.sql) ∧
    (∀ q : QueryContent, getPreviewText (.duplicate_query q) = truncate q.sql) ∧
    (∀ (values : List (List (String × Value))) (label : Option String),
        getPreviewText (.table values label) = toString values.length ++ " rows") ∧
    (∀ b : Bool, getPreviewText (.bool b) = (if b then "true" else "false")) ∧
    (getPreviewText .null = "null") ∧
    (∀ (ty : String) (content : Value), getPreviewText (.other ty content) = ty) ∧
    (∀ tc : TypedContent, previewTruncated tc = true →
        (getPreviewText tc).length ≤ 50 ∧ ∀ c ∈ (getPreviewText tc).data, c ≠ '\n') :=
  ⟨fun _ _ => rfl, fun _ _ _ => rfl, fun _ => rfl, fun _ => rfl, fun _ => rfl,
    fun _ _ => rfl, fun _ => rfl, rfl, fun _ _ => rfl, previewTruncated_bounded⟩

/-- C2 counterexample: a `measure` payload whose timer name has 51 characters
is previewed verbatim, exceeding the claimed 50-character bound. -/
theorem preview_bound_cex :
    ¬ (getPreviewText
        (.measure "aaaaaaaaaaaaaaaaaaaaaaaaaaaaaaaaaaaaaaaaaaaaaaaaaaa"
          none none none)).length ≤ 50 := by
  decide

theorem preview_rules_witness :
    previewTruncated (.log [.str "hello", .num 42] none) = true ∧
    ((getPreviewText (.log [.str "hello", .num 42] none)).length ≤ 50 ∧
      ∀ c ∈ (getPreviewText (.log [.str "hello", .num 42] none)).data, c ≠ '\n') ∧
    getPreviewText (.log [.str "hello", .num 42] none) = "hello, 42" :=
  ⟨rfl, preview_rules_amended.2.2.2.2.2.2.2.2.2 _ rfl, rfl⟩

/-- C7: `detectLanguage` is a pure function of its input text, and its
structural JSON check has priority over the keyword heuristics: any text whose
trimmed form is fully brace- or bracket-delimited and parses as JSON is
classified `json` no matter what the SQL or scripting patterns would say, and
in particular the literal text `{"a":1}` classifies as `json`. -/
theorem detectLanguage_structural_priority :
    (∀ s : String, detectLanguage s = detectLanguage s) ∧
    (∀ s : String,
        ((trimChars s.data).head? == some lbrace &&
            (trimChars s.data).getLast? == some rbrace ||
         (trimChars s.data).head? == some '[' &&
            (trimChars s.data).getLast? == some ']') = true →
        jsonValid (trimChars s.data) = true →
        detectLanguage s = some "json") ∧
    detectLanguage "\x7b\"a\":1\x7d" = some "json" := by
  refine ⟨fun s => rfl, ?_, by decide⟩
  intro s hdelim hvalid
  have hhead : ((trimChars s.data).head? == some '<') = false := by
    have hd := hdelim
    simp only [Bool.or_eq_true, Bool.and_eq_true] at hd
    rcases hd with ⟨h1, _⟩ | ⟨h1, _⟩ <;>
      · rw [beq_iff_eq] at h1
        rw [h1]
        decide
  simp only [detectLanguage]
  rw [hhead]
  simp only [Bool.false_and, Bool.false_eq_true, if_false]
  rw [hdelim, hvalid]
  rfl

theorem detectLanguage_witness :
    detectLanguage "  \x7b\"a\":1\x7d  " = some "json" :=
  detectLanguage_structural_priority.2.1 "  \x7b\"a\":1\x7d  " (by decide) (by decide)

end Raybun
